import Mathlib

/-!
Shallow embedding of the worker-pool coordinator (`WorkerPool` in the
repository's worker-pool module) and of the worker-side pipeline singleton
(`PipelineSingleton` and the worker message listener), together with proofs
of the behavioural properties claimed for them.

Conventions of the embedding:
* JS `Map` (insertion-ordered) is a `List` of entries; `Map.set` overwrites in
  place or appends, `Map.delete` filters the key out keeping order.
* JS `Set` (insertion-ordered) is a duplicate-free `List`; `Set.add` appends
  when absent, `Set.delete` filters out.
* Worker objects are identified by a fresh `ref` (object identity); the
  mutable `worker.id` field is `wid`, the mutable `worker.busy` flag is
  membership in `busySet`.
* Task ids are ordinals standing for the generated unique id strings; the
  ordinal equals the submission index, so id order is submission order.
* Promise settlement (`task.resolve` / `task.reject`) is modelled by
  appending `(taskId, outcome)` to the `settled` log, and task dispatch
  (`worker.postMessage({imageUrl, taskId})`) by appending `(taskId, ref)`
  to the `dispatchLog`.
-/

namespace Pool

/-- A worker object: `ref` is object identity (fresh per `new Worker(...)`),
`wid` is the `worker.id` field (`worker.id = i` in `initialize`, copied by
`restartWorker`). -/
structure WorkerObj where
  ref : Nat
  wid : Nat
deriving DecidableEq, Repr

/-- How a task future was settled. -/
inductive Outcome where
  | resolved
  | rejectedTaskError
  | rejectedFault
  | rejectedTerminated
deriving DecidableEq, Repr

/-- A task record (`{ id, imageUrl, resolve, reject, onProgress }` built in
`processImage`); the payload and callbacks carry no pool-state information and
are omitted, `worker` is the `task.worker` field assigned in `executeTask`. -/
structure Task where
  id : Nat
  worker : Option Nat := none
deriving DecidableEq, Repr

/-- The coordinator state: the fields of the `WorkerPool` class, plus
`nextRef`/`nextTask` (fresh-name supplies), `pendingRestarts` (the scheduled
`setTimeout(() => restartWorker(worker), 1000)` callbacks), and the two
observation logs `settled` and `dispatchLog`. -/
structure PoolState where
  maxWorkers : Nat
  nextRef : Nat
  nextTask : Nat
  workers : List WorkerObj
  busySet : List Nat
  taskQueue : List Task
  activeTasks : List Task
  readyWorkers : List Nat
  isInitializing : Bool
  pendingRestarts : List WorkerObj
  settled : List (Nat × Outcome)
  dispatchLog : List (Nat × Nat)
deriving DecidableEq, Repr

/-- `new WorkerPool(maxWorkers)`: `this.maxWorkers = Math.min(maxWorkers,
navigator.hardwareConcurrency || 4)`; `hw = 0` models a falsy
`hardwareConcurrency`.  All containers start empty. -/
def mkPool (requested hw : Nat) : PoolState :=
  { maxWorkers := min requested (if hw = 0 then 4 else hw),
    nextRef := 0, nextTask := 0, workers := [], busySet := [],
    taskQueue := [], activeTasks := [], readyWorkers := [],
    isInitializing := false, pendingRestarts := [], settled := [],
    dispatchLog := [] }

/-- JS `Set.add`: no-op when present, else appended at the end. -/
def setAdd (x : Nat) (l : List Nat) : List Nat :=
  if x ∈ l then l else l ++ [x]

/-- JS `Set.delete`: remove the element, keeping the order of the others. -/
def setDel (x : Nat) (l : List Nat) : List Nat :=
  l.filter (fun y => y != x)

/-- JS `Map.set`: overwrite in place when the key exists, else append. -/
def mapSet (m : List Task) (t : Task) : List Task :=
  if m.any (fun u => u.id == t.id) then
    m.map (fun u => if u.id == t.id then t else u)
  else m ++ [t]

/-- JS `Map.delete`: remove the entry with the key, keeping the others. -/
def mapDelete (m : List Task) (i : Nat) : List Task :=
  m.filter (fun u => u.id != i)

/-- `findTaskIdByWorker`: first entry of the active map (insertion order)
whose `task.worker` is this worker, or `null`. -/
def findTaskIdByWorker (active : List Task) (w : Nat) : Option Nat :=
  (active.find? (fun t => t.worker == some w)).map Task.id

/-- `executeTask(task, worker)`: `worker.busy = true; task.worker = worker;
activeTasks.set(task.id, task); worker.postMessage({imageUrl, taskId})`. -/
def executeTask (s : PoolState) (t : Task) (w : Nat) : PoolState :=
  { s with
      busySet := setAdd w s.busySet,
      activeTasks := mapSet s.activeTasks { t with worker := some w },
      dispatchLog := s.dispatchLog ++ [(t.id, w)] }

/-- `getAvailableWorker()`: first element of the ready set in insertion order
(`values().next().value`), removed from the set; `null` when empty. -/
def getAvailableWorker (s : PoolState) : Option Nat × PoolState :=
  match s.readyWorkers with
  | [] => (none, s)
  | w :: _ => (some w, { s with readyWorkers := setDel w s.readyWorkers })

/-- `processQueue()`: return if the queue or the ready set is empty; otherwise
shift the head task, take an available worker and execute, or unshift the task
back when no worker was returned. -/
def processQueue (s : PoolState) : PoolState :=
  if s.taskQueue.length = 0 ∨ s.readyWorkers.length = 0 then s
  else
    match s.taskQueue with
    | [] => s
    | task :: rest =>
      let s1 := { s with taskQueue := rest }
      match getAvailableWorker s1 with
      | (some w, s2) => executeTask s2 task w
      | (none, s2) => { s2 with taskQueue := task :: s2.taskQueue }

/-- `processImage(imageUrl, onProgress)`: allocate a task with a fresh id,
push it at the tail of the queue, trigger `processQueue()`; the returned
promise settles through the `settled` log. -/
def processImage (s : PoolState) : PoolState :=
  processQueue
    { s with
        nextTask := s.nextTask + 1,
        taskQueue := s.taskQueue ++ [{ id := s.nextTask }] }

/-- The `data.status` discriminator of a worker message as matched by
`handleWorkerMessage`; `progress` stands for every other status, forwarded to
`onProgress` without touching pool state. -/
inductive WMsg where
  | ready
  | complete
  | errorMsg
  | progress
deriving DecidableEq, Repr

/-- The task-settling part of the `complete`/`error` case of
`handleWorkerMessage`: `if (taskId && activeTasks.has(taskId)) {
activeTasks.delete(taskId); resolve/reject }`. -/
def settleBound (s : PoolState) (taskId : Option Nat) (out : Outcome) :
    PoolState :=
  match taskId with
  | some tid =>
    if s.activeTasks.any (fun u => u.id == tid) then
      { s with
          activeTasks := mapDelete s.activeTasks tid,
          settled := s.settled ++ [(tid, out)] }
    else s
  | none => s

/-- `handleWorkerMessage(worker, event)`: `taskId =
findTaskIdByWorker(worker)` first, then dispatch on `data.status`. -/
def handleWorkerMessage (s : PoolState) (w : WorkerObj) (m : WMsg) :
    PoolState :=
  let taskId := findTaskIdByWorker s.activeTasks w.ref
  match m with
  | .ready => processQueue { s with readyWorkers := setAdd w.ref s.readyWorkers }
  | .complete =>
    processQueue (settleBound
      { s with
          busySet := setDel w.ref s.busySet,
          readyWorkers := setAdd w.ref s.readyWorkers } taskId .resolved)
  | .errorMsg =>
    processQueue (settleBound
      { s with
          busySet := setDel w.ref s.busySet,
          readyWorkers := setAdd w.ref s.readyWorkers } taskId .rejectedTaskError)
  | .progress => s

/-- The rejection loop of `handleWorkerError`: iterate the entries of the
active map in insertion order and, whenever `findTaskIdByWorker(worker)`
(recomputed against the current map) equals the visited key, reject that task
and delete it. -/
def faultLoop (w : Nat) (entries : List Task) (s : PoolState) : PoolState :=
  match entries with
  | [] => s
  | t :: rest =>
    if findTaskIdByWorker s.activeTasks w == some t.id then
      faultLoop w rest
        { s with
            activeTasks := mapDelete s.activeTasks t.id,
            settled := s.settled ++ [(t.id, Outcome.rejectedFault)] }
    else faultLoop w rest s

/-- `handleWorkerError(worker, error)`: `worker.busy = false;
readyWorkers.delete(worker)`; reject the active tasks found by the loop; then
`setTimeout(() => restartWorker(worker), 1000)` (recorded as a pending
restart). -/
def handleWorkerError (s : PoolState) (w : WorkerObj) : PoolState :=
  let s1 := { s with
      busySet := setDel w.ref s.busySet,
      readyWorkers := setDel w.ref s.readyWorkers }
  let s2 := faultLoop w.ref s1.activeTasks s1
  { s2 with pendingRestarts := s2.pendingRestarts ++ [w] }

/-- `restartWorker(worker)`: terminate the old worker, construct a fresh one
with `newWorker.id = worker.id` and `newWorker.busy = false`, store it at
`this.workers[worker.id]`, and post `init` to it.  The index assignment is
modelled with `List.set`, which matches the JS assignment whenever
`worker.id` is a live index of the array — as it is for every worker the
pool has spawned. -/
def restartWorker (s : PoolState) (w : WorkerObj) : PoolState :=
  { s with
      nextRef := s.nextRef + 1,
      busySet := setDel s.nextRef s.busySet,
      workers := s.workers.set w.wid { ref := s.nextRef, wid := w.wid } }

/-- The worker-creation loop of `initialize`: for `i` in `[0, n)` construct a
worker with `worker.id = i`, `worker.busy = false`, wire its listeners, push
it onto `this.workers` and post `init`. -/
def spawnLoop (s : PoolState) (i : Nat) : Nat → PoolState
  | 0 => s
  | n + 1 =>
    spawnLoop
      { s with
          nextRef := s.nextRef + 1,
          workers := s.workers ++ [{ ref := s.nextRef, wid := i }] } (i + 1) n

/-- `initialize()`: return early when `isInitializing`; otherwise set the
flag, run the creation loop for `maxWorkers` workers, and clear the flag (the
async body has no await, so it runs to completion as one step). -/
def initPool (s : PoolState) : PoolState :=
  if s.isInitializing then s
  else
    let s1 := spawnLoop { s with isInitializing := true } 0 s.maxWorkers
    { s1 with isInitializing := false }

/-- `terminate()`: reject every queued task, clear the queue; reject every
active task, clear the map; terminate every worker, clear `workers` and the
ready set. -/
def terminatePool (s : PoolState) : PoolState :=
  let s1 := { s with
      settled := s.settled ++
      s.taskQueue.map (fun (t : Task) => (t.id, Outcome.rejectedTerminated)),
      taskQueue := [] }
  let s2 := { s1 with
      settled := s1.settled ++
      s1.activeTasks.map (fun (t : Task) => (t.id, Outcome.rejectedTerminated)),
      activeTasks := [] }
  { s2 with workers := [], readyWorkers := [] }

/-- The record returned by `getStats()`. -/
structure Stats where
  totalWorkers : Nat
  readyWorkers : Nat
  activeTasks : Nat
  queuedTasks : Nat
  isInitializing : Bool
deriving DecidableEq, Repr

/-- `getStats()`. -/
def getStats (s : PoolState) : Stats :=
  { totalWorkers := s.workers.length,
    readyWorkers := s.readyWorkers.length,
    activeTasks := s.activeTasks.length,
    queuedTasks := s.taskQueue.length,
    isInitializing := s.isInitializing }

/-- The external events the coordinator reacts to: an `initialize()` call, a
`processImage` submission, a message or an error event from a worker, a
scheduled restart timeout firing, and a `terminate()` call. -/
inductive Event where
  | init
  | submit
  | msg (w : WorkerObj) (m : WMsg)
  | fault (w : WorkerObj)
  | restartFire (w : WorkerObj)
  | terminate
deriving DecidableEq, Repr

/-- One serialized handler step of the coordinator. -/
def step (s : PoolState) : Event → PoolState
  | .init => initPool s
  | .submit => processImage s
  | .msg w m => handleWorkerMessage s w m
  | .fault w => handleWorkerError s w
  | .restartFire w =>
    restartWorker { s with pendingRestarts := s.pendingRestarts.erase w } w
  | .terminate => terminatePool s

/-- Which events can occur in a state: worker messages and error events come
only from wired workers (each listener is attached to a live worker object),
and a restart timeout fires only if scheduled.  No constraint is placed on
message contents: in particular a unit may signal `ready` even while a task
is bound to it, as happens when pipeline construction fails on `init` and
then succeeds on the retry performed inside a dispatched task. -/
def validEventB (s : PoolState) : Event → Bool
  | .msg w _ => s.workers.contains w
  | .fault w => s.workers.contains w
  | .restartFire w => s.pendingRestarts.contains w
  | _ => true

/-- The pool states reachable from a freshly constructed pool by valid
events. -/
inductive Reachable : PoolState → Prop where
  | start (requested hw : Nat) : Reachable (mkPool requested hw)
  | next {s : PoolState} (e : Event) :
      Reachable s → validEventB s e = true → Reachable (step s e)

/-- Iterated `processImage` submissions. -/
def submitN (s : PoolState) : Nat → PoolState
  | 0 => s
  | n + 1 => submitN (processImage s) n

/-- Settlements recorded for task `i`. -/
def settledCount (s : PoolState) (i : Nat) : Nat :=
  s.settled.countP (fun p => p.1 == i)

/-- Occurrences of task `i` in the pending queue. -/
def queuedCount (s : PoolState) (i : Nat) : Nat :=
  s.taskQueue.countP (fun t => t.id == i)

/-- Occurrences of task `i` in the active map. -/
def activeCount (s : PoolState) (i : Nat) : Nat :=
  s.activeTasks.countP (fun t => t.id == i)

end Pool

namespace Worker

/-- The result record built by the worker after inference: `{ width:
image.width, height: image.height, imageData: arrayBuffer }`. -/
structure ResultRecord where
  width : Nat
  height : Nat
  imageData : List Nat
deriving DecidableEq, Repr

/-- A field value of a JS object crossing the worker/coordinator boundary. -/
inductive FieldVal where
  | vStr (s : String)
  | vNat (n : Nat)
  | vBytes (b : List Nat)
  | vRecord (r : ResultRecord)
deriving DecidableEq, Repr

/-- A JS object as an ordered field list. -/
abbrev JsObject : Type := List (String × FieldVal)

/-- The message the worker posts on completion: `self.postMessage({ status:
'complete', output: { width, height, imageData } })` — the result record sits
under the `output` field, next to the `status` field. -/
def workerCompleteMessage (r : ResultRecord) : JsObject :=
  [("status", FieldVal.vStr "complete"), ("output", FieldVal.vRecord r)]

/-- The `{ width, height, imageData }` record itself, as a JS object; this is
the shape the spec says the caller receives. -/
def bareResultObject (r : ResultRecord) : JsObject :=
  [("width", FieldVal.vNat r.width), ("height", FieldVal.vNat r.height),
   ("imageData", FieldVal.vBytes r.imageData)]

/-- What the coordinator passes to the task future on `complete`:
`task.resolve(data)` — the whole delivered message, unmodified. -/
def resolveValue (data : JsObject) : JsObject := data

/-- JS property read `obj[k]`. -/
def jsGet (o : JsObject) (k : String) : Option FieldVal :=
  (o.find? (fun p => p.1 == k)).map Prod.snd

/-- Outcome of one `from_pretrained` load. -/
inductive LoadOutcome where
  | ok
  | fail (msg : String)
deriving DecidableEq, Repr

/-- The error text built in the `catch` of `PipelineSingleton.getInstance`:
`` `Failed to load ${modelLoaded ? 'processor' : 'model'}: ${error.message}`
``. -/
def catchMessage (modelLoaded : Bool) (e : String) : String :=
  "Failed to load " ++ (if modelLoaded then "processor" else "model") ++
    ": " ++ e

/-- One construction run of `getInstance` reduced to its error behaviour:
`modelLoaded` starts `false`, is set `true` only after the model load
resolves; a throw from either load reaches the `catch`, which posts
`{ status: 'error', error: catchMessage modelLoaded e }`; `none` when both
loads succeed. -/
def constructionError (mo po : LoadOutcome) : Option String :=
  match mo with
  | .fail e => some (catchMessage false e)
  | .ok =>
    match po with
    | .fail e => some (catchMessage true e)
    | .ok => none

/-- The `{ status: 'error', error: msg }` object the catch posts. -/
def errorMessageObject (msg : String) : JsObject :=
  [("status", FieldVal.vStr "error"), ("error", FieldVal.vStr msg)]

/-- The static fields of `PipelineSingleton`: `model` and `processor`, both
`null` until assigned; values are tagged by the call that produced them. -/
structure SingletonSt where
  model : Option Nat
  processor : Option Nat
deriving DecidableEq, Repr

/-- Where one `getInstance` call stands, split at its `await` points:
`notStarted` (the call has not run yet), `awaitingModel` (the guard held and
`AutoModel.from_pretrained` is in flight), `awaitingProcessor`
(`this.model` assigned, `AutoProcessor.from_pretrained` in flight), `done`
(returned `{ model: this.model, processor: this.processor }`, read from the
statics at return time). -/
inductive CallPhase where
  | notStarted
  | awaitingModel
  | awaitingProcessor
  | done (model : Option Nat) (processor : Option Nat)
deriving DecidableEq, Repr

/-- The worker-side system state: the singleton statics, the phase of each
pending `getInstance` call (one per `init`/task message), and how many
constructions have been started (how many times the guard was passed and
`AutoModel.from_pretrained` begun). -/
structure SysState where
  singleton : SingletonSt
  calls : List CallPhase
  constructions : Nat
deriving DecidableEq, Repr

/-- `numCalls` messages each about to run `getInstance`, statics `null`. -/
def initSys (numCalls : Nat) : SysState :=
  { singleton := { model := none, processor := none },
    calls := List.replicate numCalls CallPhase.notStarted,
    constructions := 0 }

/-- Advance call `j` by one atomic segment of `getInstance`:
* from `notStarted`: evaluate the guard `!this.model || !this.processor`;
  when it holds, begin the model load (one construction starts) and suspend
  at the first `await`; otherwise return the cached pair at once;
* from `awaitingModel`: the model load resolves; assign `this.model`
  (tagged `j`), begin the processor load, suspend at the second `await`;
* from `awaitingProcessor`: assign `this.processor` (tagged `j`) and return
  `{ model: this.model, processor: this.processor }` from the statics. -/
def stepCall (s : SysState) (j : Nat) : SysState :=
  match s.calls.get? j with
  | none => s
  | some phase =>
    match phase with
    | .notStarted =>
      if s.singleton.model = none ∨ s.singleton.processor = none then
        { s with
            calls := s.calls.set j CallPhase.awaitingModel,
            constructions := s.constructions + 1 }
      else
        { s with
            calls := s.calls.set j
              (CallPhase.done s.singleton.model s.singleton.processor) }
    | .awaitingModel =>
      { s with
          singleton := { s.singleton with model := some j },
          calls := s.calls.set j CallPhase.awaitingProcessor }
    | .awaitingProcessor =>
      { s with
          singleton := { s.singleton with processor := some j },
          calls := s.calls.set j
            (CallPhase.done s.singleton.model (some j)) }
    | .done _ _ => s

/-- Run a schedule: at each step the event loop resumes one call. -/
def runSched (s : SysState) : List Nat → SysState
  | [] => s
  | j :: rest => runSched (stepCall s j) rest

/-- The system after message 0's `getInstance` has run to completion alone:
the statics hold the constructed pair, one construction has happened, a
second message's call has not started yet. -/
def sysAfterOne : SysState := runSched (initSys 2) [0, 0, 0]

end Worker

namespace Pool

/-- No active task is bound to worker ref `w`. -/
def Unbound (l : List Task) (w : Nat) : Prop := ∀ t ∈ l, t.worker ≠ some w

/-! ### The pool invariant -/

/-- The structural invariant of quiescent pool states: every created task is
settled or waiting or active — exactly one of the three and exactly once; the
queue is in submission order; the ready set is duplicate-free.  (The ready
set carries no unboundedness guarantee: a unit that signals `ready` while
running a task is added to it regardless.) -/
structure CoreInv (s : PoolState) : Prop where
  oneplace : ∀ i, settledCount s i + queuedCount s i + activeCount s i
      = if i < s.nextTask then 1 else 0
  queueSorted : s.taskQueue.Pairwise (fun a b => a.id < b.id)
  readyNodup : s.readyWorkers.Nodup

/-- Full invariant of quiescent states: additionally the last `processQueue`
run has left nothing dispatchable. -/
structure Inv (s : PoolState) : Prop where
  core : CoreInv s
  drained : s.taskQueue = [] ∨ s.readyWorkers = []

/-- States in which at most one dispatch is pending — what holds at the
moment `processQueue` is entered from any handler. -/
def nearly (s : PoolState) : Prop :=
  s.taskQueue.length ≤ 1 ∨ s.readyWorkers.length ≤ 1

/-- The singleton pool as constructed in the repository: `new WorkerPool()`
keeps the default `maxWorkers = 2`; the host machine reports 8 for
`navigator.hardwareConcurrency`. -/
def pool0 : PoolState := mkPool 2 8

/-- The first worker spawned by `initialize()` (object 0, `worker.id = 0`). -/
def workerA : WorkerObj := { ref := 0, wid := 0 }

/-- The second worker spawned by `initialize()` (object 1, `worker.id = 1`). -/
def workerB : WorkerObj := { ref := 1, wid := 1 }

/-- The pool right after `initialize()` has spawned its workers. -/
def poolInit : PoolState := step pool0 .init

/-- The pool after both workers have signalled `ready`. -/
def poolReady2 : PoolState :=
  step (step poolInit (.msg workerA .ready)) (.msg workerB .ready)

/-- `poolReady2` after one submission (the task is dispatched at once). -/
def poolOne : PoolState := submitN poolReady2 1

/-- The pool after `initialize()` and one submission while no unit has
signalled ready yet: one task waits in the queue, the ready set is empty. -/
def poolQueuedOne : PoolState := submitN poolInit 1

/-- `poolQueuedOne` after worker 0 reports the init-failure `error` message:
the handler makes the unit ready and the trailing drain at once dispatches
the waiting task to it, so the unit ends up busy and bound. -/
def poolBound : PoolState := step poolQueuedOne (.msg workerA .errorMsg)

/-- `poolBound` after worker 0 posts `ready` — in the program this happens
when the pipeline construction, retried inside the dispatched task after the
failed `init`, succeeds and `getInstance` posts `{ status: 'ready' }`: the
`ready` case adds the worker to the ready set while its task is still
bound. -/
def poolReadyWhileBound : PoolState := step poolBound (.msg workerA .ready)

/-- `poolReady2` after five submissions t1..t5 (ids 0..4). -/
def poolFive : PoolState := submitN poolReady2 5

/-- `poolFive` after the worker running t1 reports `complete`. -/
def poolAfter1 : PoolState := step poolFive (.msg workerA .complete)

/-- `poolAfter1` after the worker running t2 reports `complete`. -/
def poolAfter2 : PoolState := step poolAfter1 (.msg workerB .complete)

/-- `poolAfter2` after the worker running t3 reports `complete`. -/
def poolAfter3 : PoolState := step poolAfter2 (.msg workerA .complete)

end Pool

namespace Pool

/-! ### Basic facts about the container helpers -/

theorem mem_setAdd {x y : Nat} {l : List Nat} :
    y ∈ setAdd x l ↔ y ∈ l ∨ y = x := by
  unfold setAdd
  by_cases h : x ∈ l
  · rw [if_pos h]
    constructor
    · exact Or.inl
    · rintro (hy | rfl)
      · exact hy
      · exact h
  · rw [if_neg h]
    simp [List.mem_append]

theorem nodup_setAdd {x : Nat} {l : List Nat} (h : l.Nodup) :
    (setAdd x l).Nodup := by
  unfold setAdd
  by_cases hx : x ∈ l
  · rwa [if_pos hx]
  · rw [if_neg hx]
    exact h.append (List.nodup_singleton x)
      (by simpa [List.disjoint_singleton] using hx)

theorem mem_setDel {x y : Nat} {l : List Nat} :
    y ∈ setDel x l ↔ y ∈ l ∧ y ≠ x := by
  simp [setDel, List.mem_filter]

theorem nodup_setDel {x : Nat} {l : List Nat} (h : l.Nodup) :
    (setDel x l).Nodup :=
  h.filter _

theorem setDel_not_mem {x : Nat} {l : List Nat} (h : x ∉ l) :
    setDel x l = l := by
  rw [setDel, List.filter_eq_self]
  intro a ha
  simp only [bne_iff_ne, ne_eq]
  rintro rfl
  exact h ha

theorem setDel_cons_self {w : Nat} {ws : List Nat} (h : w ∉ ws) :
    setDel w (w :: ws) = ws := by
  rw [setDel, List.filter_cons, if_neg (by simp)]
  exact setDel_not_mem h

theorem countP_le_one_eq {α : Type} {p : α → Bool} {l : List α}
    (h : l.countP p ≤ 1) {a b : α} (ha : a ∈ l) (hb : b ∈ l)
    (hpa : p a = true) (hpb : p b = true) : a = b := by
  by_contra hne
  obtain ⟨l1, l2, rfl⟩ := List.append_of_mem ha
  have hb2 : b ∈ l1 ∨ b ∈ l2 := by
    rcases List.mem_append.mp hb with h1 | h2
    · exact Or.inl h1
    · rcases List.mem_cons.mp h2 with rfl | h3
      · exact absurd rfl hne
      · exact Or.inr h3
  have hcnt : (l1 ++ a :: l2).countP p = l1.countP p + (l2.countP p + 1) := by
    rw [List.countP_append, List.countP_cons, hpa]
    simp
  rcases hb2 with hbl | hbl
  · have hpos : 0 < l1.countP p := List.countP_pos_iff.mpr ⟨b, hbl, hpb⟩
    omega
  · have hpos : 0 < l2.countP p := List.countP_pos_iff.mpr ⟨b, hbl, hpb⟩
    omega

theorem countP_split {α : Type} (p q : α → Bool) (l : List α) :
    l.countP (fun a => p a && q a) + l.countP (fun a => p a && !q a)
      = l.countP p := by
  induction l with
  | nil => rfl
  | cons a l ih =>
    simp only [List.countP_cons]
    by_cases hp : p a <;> by_cases hq : q a <;> simp [hp, hq] <;> omega

theorem any_eq_false_of_countP_eq_zero {α : Type} {p : α → Bool}
    {l : List α} (h : l.countP p = 0) : l.any p = false := by
  rw [List.any_eq_false]
  intro a ha
  exact List.countP_eq_zero.mp h a ha

theorem find?_append_none {α : Type} {p : α → Bool} {l1 l2 : List α}
    (h : ∀ a ∈ l1, ¬ p a) : (l1 ++ l2).find? p = l2.find? p := by
  rw [List.find?_append, List.find?_eq_none.mpr h]
  rfl

theorem findTaskIdByWorker_eq_none {l : List Task} {w : Nat} :
    findTaskIdByWorker l w = none ↔ Unbound l w := by
  simp [findTaskIdByWorker, List.find?_eq_none, Unbound]

theorem findTaskIdByWorker_eq_some {l : List Task} {w tid : Nat}
    (h : findTaskIdByWorker l w = some tid) :
    ∃ t ∈ l, t.worker = some w ∧ t.id = tid := by
  unfold findTaskIdByWorker at h
  cases hf : l.find? (fun t => t.worker == some w) with
  | none => rw [hf] at h; cases h
  | some t =>
    rw [hf] at h
    refine ⟨t, List.mem_of_find?_eq_some hf, ?_, ?_⟩
    · have hp := List.find?_some hf
      simpa using hp
    · simpa using h

theorem CoreInv.queue_mem_counts {s : PoolState} (h : CoreInv s) {t : Task}
    (ht : t ∈ s.taskQueue) :
    settledCount s t.id = 0 ∧ queuedCount s t.id = 1 ∧
      activeCount s t.id = 0 := by
  have h1 : 0 < queuedCount s t.id :=
    List.countP_pos_iff.mpr ⟨t, ht, by simp⟩
  have h2 := h.oneplace t.id
  by_cases hlt : t.id < s.nextTask
  · rw [if_pos hlt] at h2; omega
  · rw [if_neg hlt] at h2; omega

theorem CoreInv.queued_id_lt {s : PoolState} (h : CoreInv s) {t : Task}
    (ht : t ∈ s.taskQueue) : t.id < s.nextTask := by
  have h1 : 0 < queuedCount s t.id :=
    List.countP_pos_iff.mpr ⟨t, ht, by simp⟩
  have h2 := h.oneplace t.id
  by_cases hlt : t.id < s.nextTask
  · exact hlt
  · rw [if_neg hlt] at h2; omega

theorem CoreInv.active_counts {s : PoolState} (h : CoreInv s) {t : Task}
    (ht : t ∈ s.activeTasks) : activeCount s t.id = 1 := by
  have h1 : 0 < activeCount s t.id :=
    List.countP_pos_iff.mpr ⟨t, ht, by simp⟩
  have h2 := h.oneplace t.id
  by_cases hlt : t.id < s.nextTask
  · rw [if_pos hlt] at h2; omega
  · rw [if_neg hlt] at h2; omega

theorem Inv.transfer {s s' : PoolState}
    (hq : s'.taskQueue = s.taskQueue) (ha : s'.activeTasks = s.activeTasks)
    (hr : s'.readyWorkers = s.readyWorkers) (hs : s'.settled = s.settled)
    (hn : s'.nextTask = s.nextTask) (h : Inv s) : Inv s' := by
  constructor
  · constructor
    · intro i
      have hh := h.core.oneplace i
      unfold settledCount queuedCount activeCount at hh ⊢
      rw [hq, ha, hs, hn]
      exact hh
    · rw [hq]; exact h.core.queueSorted
    · rw [hr]; exact h.core.readyNodup
  · rw [hq, hr]; exact h.drained

end Pool

namespace Pool

theorem countP_worker_eq_zero_of_unbound {l : List Task} {w : Nat}
    (h : Unbound l w) : l.countP (fun t => t.worker == some w) = 0 :=
  List.countP_eq_zero.mpr (fun t ht => by simpa using h t ht)

theorem processQueue_of_queue_nil {s : PoolState} (h : s.taskQueue = []) :
    processQueue s = s := by
  unfold processQueue
  rw [if_pos (Or.inl (by rw [h]; rfl))]

theorem processQueue_of_ready_nil {s : PoolState} (h : s.readyWorkers = []) :
    processQueue s = s := by
  unfold processQueue
  rw [if_pos (Or.inr (by rw [h]; rfl))]

theorem processQueue_dispatch {s : PoolState} {t : Task} {q : List Task}
    {w : Nat} {ws : List Nat} (hq : s.taskQueue = t :: q)
    (hr : s.readyWorkers = w :: ws) (hw : w ∉ ws) :
    processQueue s =
      executeTask { s with taskQueue := q, readyWorkers := ws } t w := by
  unfold processQueue getAvailableWorker
  simp only [hq, hr, List.length_cons]
  rw [if_neg (by omega)]
  simp only [setDel_cons_self hw]

theorem inv_processQueue {s : PoolState} (hc : CoreInv s) (hn : nearly s) :
    Inv (processQueue s) := by
  cases hq : s.taskQueue with
  | nil =>
    rw [processQueue_of_queue_nil hq]
    exact ⟨hc, Or.inl hq⟩
  | cons t q =>
    cases hr : s.readyWorkers with
    | nil =>
      rw [processQueue_of_ready_nil hr]
      exact ⟨hc, Or.inr hr⟩
    | cons w ws =>
      have hnodup : (w :: ws).Nodup := hr ▸ hc.readyNodup
      have hwws : w ∉ ws := (List.nodup_cons.mp hnodup).1
      rw [processQueue_dispatch hq hr hwws]
      have htmem : t ∈ s.taskQueue := by rw [hq]; exact List.mem_cons_self t q
      have hcounts := hc.queue_mem_counts htmem
      have hidlt : t.id < s.nextTask := hc.queued_id_lt htmem
      have hqzero : q.countP (fun u => u.id == t.id) = 0 := by
        have h1 := hcounts.2.1
        unfold queuedCount at h1
        rw [hq, List.countP_cons] at h1
        simp only [beq_self_eq_true, if_pos] at h1
        omega
      have hmapset :
          mapSet s.activeTasks { t with worker := some w }
            = s.activeTasks ++ [{ t with worker := some w }] := by
        unfold mapSet
        rw [if_neg ?_]
        have h0 : activeCount s t.id = 0 := hcounts.2.2
        unfold activeCount at h0
        rw [any_eq_false_of_countP_eq_zero h0]
        simp
      unfold executeTask
      rw [hmapset]
      constructor
      · constructor
        · intro i
          have horig := hc.oneplace i
          unfold settledCount queuedCount activeCount at horig ⊢
          simp only [List.countP_append, List.countP_cons, List.countP_nil]
          rw [hq, List.countP_cons] at horig
          by_cases hi : t.id = i
          · subst hi
            have h0 : s.settled.countP (fun p => p.1 == t.id) = 0 := by
              have := hcounts.1; unfold settledCount at this; exact this
            have h1 : s.activeTasks.countP (fun u => u.id == t.id) = 0 := by
              have := hcounts.2.2; unfold activeCount at this; exact this
            simp only [beq_self_eq_true, if_pos] at horig ⊢
            rw [if_pos hidlt]
            simp only [h0, h1, hqzero]
          · have hne : (Task.id t == i) = false := by
              simp [hi]
            rw [hne] at horig
            simp only [hne]
            simpa using horig
        · have := hc.queueSorted
          rw [hq] at this
          exact this.of_cons
        · exact (List.nodup_cons.mp hnodup).2
      · rcases hn with h1 | h1
        · rw [hq, List.length_cons] at h1
          left
          simpa using List.length_eq_zero.mp (by omega)
        · rw [hr, List.length_cons] at h1
          right
          simpa using List.length_eq_zero.mp (by omega)

end Pool

namespace Pool

theorem CoreInv.activeCount_le_one {s : PoolState} (h : CoreInv s) (i : Nat) :
    activeCount s i ≤ 1 := by
  have hh := h.oneplace i
  by_cases hlt : i < s.nextTask
  · rw [if_pos hlt] at hh; omega
  · rw [if_neg hlt] at hh; omega

theorem Unbound.of_filter {l : List Task} {w : Nat} (h : Unbound l w)
    (q : Task → Bool) : Unbound (l.filter q) w :=
  fun t ht => h t (List.mem_of_mem_filter ht)

theorem countP_mapDelete_self (m : List Task) (i : Nat) :
    (mapDelete m i).countP (fun u => u.id == i) = 0 := by
  rw [mapDelete, List.countP_filter]
  apply List.countP_eq_zero.mpr
  intro a _
  simp

theorem countP_mapDelete_ne (m : List Task) {i j : Nat} (h : j ≠ i) :
    (mapDelete m i).countP (fun u => u.id == j)
      = m.countP (fun u => u.id == j) := by
  rw [mapDelete, List.countP_filter]
  apply List.countP_congr
  intro a _
  by_cases ha : a.id = j
  · simp [ha, h]
  · simp [ha]

theorem faultLoop_spec (w : Nat) (entries : List Task) :
    ∀ (pre : List Task) (s : PoolState),
      s.activeTasks = pre ++ entries →
      (∀ t ∈ pre, t.worker ≠ some w) →
      (∀ i, s.activeTasks.countP (fun u => u.id == i) ≤ 1) →
      faultLoop w entries s =
        { s with
            activeTasks := pre ++ entries.filter (fun t => t.worker != some w),
            settled := s.settled ++
              (entries.filter (fun t => t.worker == some w)).map
                (fun t => (t.id, Outcome.rejectedFault)) } := by
  induction entries with
  | nil =>
    intro pre s hact hpre hcnt
    simp only [faultLoop, List.filter_nil, List.map_nil, List.append_nil]
    rw [List.append_nil] at hact
    rw [← hact]
  | cons t rest ih =>
    intro pre s hact hpre hcnt
    have htmem : t ∈ s.activeTasks := by
      rw [hact]
      exact List.mem_append_right pre (List.mem_cons_self t rest)
    by_cases hb : t.worker = some w
    · have hfind : findTaskIdByWorker s.activeTasks w = some t.id := by
        unfold findTaskIdByWorker
        rw [hact, find?_append_none ?hp0]
        case hp0 =>
          intro a ha hcontra
          exact hpre a ha (by simpa using hcontra)
        rw [List.find?_cons_of_pos _ (by simp [hb])]
        rfl
      rw [faultLoop, if_pos (by rw [hfind]; simp)]
      have hc := hcnt t.id
      rw [hact, List.countP_append, List.countP_cons] at hc
      simp only [beq_self_eq_true, if_pos] at hc
      have hpre0 : pre.countP (fun u => u.id == t.id) = 0 := by omega
      have hrest0 : rest.countP (fun u => u.id == t.id) = 0 := by omega
      have hdelete : mapDelete s.activeTasks t.id = pre ++ rest := by
        rw [hact, mapDelete, List.filter_append, List.filter_cons,
          if_neg (by simp)]
        rw [List.filter_eq_self.mpr, List.filter_eq_self.mpr]
        · intro a ha
          have ha0 := List.countP_eq_zero.mp hrest0 a ha
          simpa using ha0
        · intro a ha
          have ha0 := List.countP_eq_zero.mp hpre0 a ha
          simpa using ha0
      have hstep := ih pre
        { s with
            activeTasks := mapDelete s.activeTasks t.id,
            settled := s.settled ++ [(t.id, Outcome.rejectedFault)] }
        (by simpa using hdelete) hpre
        (by
          intro i
          simp only
          rw [hdelete]
          have hsub : (pre ++ rest).Sublist (pre ++ t :: rest) :=
            (List.sublist_cons_self t rest).append_left pre
          calc (pre ++ rest).countP (fun u => u.id == i)
              ≤ (pre ++ t :: rest).countP (fun u => u.id == i) :=
                hsub.countP_le _
            _ ≤ 1 := by rw [← hact]; exact hcnt i)
      rw [hstep]
      simp only [List.filter_cons]
      rw [if_neg (by simp [hb]), if_pos (by simp [hb])]
      simp [List.append_assoc]
    · have hcond : (findTaskIdByWorker s.activeTasks w == some t.id)
          = false := by
        apply beq_eq_false_iff_ne.mpr
        intro heq
        obtain ⟨u, humem, huw, huid⟩ := findTaskIdByWorker_eq_some heq
        have hut : u ≠ t := fun hh => hb (hh ▸ huw)
        exact hut (countP_le_one_eq (hcnt t.id) humem htmem
          (by simp [huid]) (by simp))
      rw [faultLoop, if_neg (by rw [hcond]; simp)]
      have hstep := ih (pre ++ [t]) s
        (by rw [hact, List.append_assoc]; rfl)
        (by
          intro a ha
          rcases List.mem_append.mp ha with h1 | h2
          · exact hpre a h1
          · rw [List.mem_singleton] at h2
            subst h2
            exact hb)
        hcnt
      rw [hstep]
      simp only [List.filter_cons]
      rw [if_pos (by simp [hb]), if_neg (by simp [hb])]
      simp [List.append_assoc]

/-- Closed form of `handleWorkerError` on states whose active map has
duplicate-free keys: the worker leaves the ready set and the busy set, every
active task bound to it is rejected with a fault and removed (in map order),
everything else — in particular the pending queue — is untouched, and the
restart is scheduled. -/
theorem handleWorkerError_spec {s : PoolState}
    (hcnt : ∀ i, s.activeTasks.countP (fun u => u.id == i) ≤ 1)
    (w : WorkerObj) :
    handleWorkerError s w =
      { s with
          busySet := setDel w.ref s.busySet,
          readyWorkers := setDel w.ref s.readyWorkers,
          activeTasks :=
            s.activeTasks.filter (fun t => t.worker != some w.ref),
          settled := s.settled ++
            (s.activeTasks.filter (fun t => t.worker == some w.ref)).map
              (fun t => (t.id, Outcome.rejectedFault)),
          pendingRestarts := s.pendingRestarts ++ [w] } := by
  have h1 := faultLoop_spec w.ref s.activeTasks []
      { s with
          busySet := setDel w.ref s.busySet,
          readyWorkers := setDel w.ref s.readyWorkers }
      rfl (by intro t ht; cases ht) (by simpa using hcnt)
  simp only [List.nil_append] at h1
  simp only [handleWorkerError]
  rw [h1]

end Pool

namespace Pool

theorem settleBound_none {s : PoolState} {out : Outcome} :
    settleBound s none out = s := rfl

theorem settleBound_some {s : PoolState} {tid : Nat} {out : Outcome}
    (hany : s.activeTasks.any (fun u => u.id == tid) = true) :
    settleBound s (some tid) out =
      { s with
          activeTasks := mapDelete s.activeTasks tid,
          settled := s.settled ++ [(tid, out)] } := by
  have hdef : settleBound s (some tid) out =
      if (s.activeTasks.any fun u => u.id == tid) = true then
        { s with
            activeTasks := mapDelete s.activeTasks tid,
            settled := s.settled ++ [(tid, out)] }
      else s := rfl
  rw [hdef, if_pos hany]

theorem inv_processImage {s : PoolState} (h : Inv s) :
    Inv (processImage s) := by
  unfold processImage
  apply inv_processQueue
  case hc =>
    constructor
    · intro i
      have horig := h.core.oneplace i
      unfold settledCount queuedCount activeCount at horig ⊢
      simp only [List.countP_append]
      by_cases hi : s.nextTask = i
      · subst hi
        rw [if_neg (by omega)] at horig
        rw [if_pos (by omega)]
        have hone : List.countP (fun t => t.id == s.nextTask)
            [({ id := s.nextTask } : Task)] = 1 := by simp
        rw [hone]
        omega
      · have hzero : List.countP (fun t => t.id == i)
            [({ id := s.nextTask } : Task)] = 0 := by simp [hi]
        rw [hzero]
        by_cases hlt : i < s.nextTask
        · rw [if_pos hlt] at horig
          rw [if_pos (by omega)]
          omega
        · rw [if_neg hlt] at horig
          rw [if_neg (by omega)]
          omega
    · show (s.taskQueue ++ [({ id := s.nextTask } : Task)]).Pairwise _
      rw [List.pairwise_append]
      refine ⟨h.core.queueSorted, List.pairwise_singleton _ _, ?_⟩
      intro a ha b hb
      rw [List.mem_singleton] at hb
      subst hb
      exact h.core.queued_id_lt ha
    · exact h.core.readyNodup
  case hn =>
    rcases h.drained with h1 | h1
    · left
      simp [h1]
    · right
      simp [h1]

theorem inv_msg_ready {s : PoolState} (w : WorkerObj) (h : Inv s) :
    Inv (handleWorkerMessage s w .ready) := by
  unfold handleWorkerMessage
  apply inv_processQueue
  case hc =>
    constructor
    · exact h.core.oneplace
    · exact h.core.queueSorted
    · exact nodup_setAdd h.core.readyNodup
  case hn =>
    rcases h.drained with h1 | h1
    · left
      simp [h1]
    · right
      rw [h1]
      simp [setAdd]

theorem inv_msg_settle {s : PoolState} (w : WorkerObj) (out : Outcome)
    (h : Inv s) :
    Inv (processQueue (settleBound
      { s with
          busySet := setDel w.ref s.busySet,
          readyWorkers := setAdd w.ref s.readyWorkers }
      (findTaskIdByWorker s.activeTasks w.ref) out)) := by
  have hnearly :
      ∀ s' : PoolState, s'.taskQueue = s.taskQueue →
        s'.readyWorkers = setAdd w.ref s.readyWorkers → nearly s' := by
    intro s' hq hr
    rcases h.drained with h1 | h1
    · left
      rw [hq, h1]
      simp
    · right
      rw [hr, h1]
      simp [setAdd]
  cases hfind : findTaskIdByWorker s.activeTasks w.ref with
  | none =>
    rw [settleBound_none]
    apply inv_processQueue
    case hc =>
      constructor
      · exact h.core.oneplace
      · exact h.core.queueSorted
      · exact nodup_setAdd h.core.readyNodup
    case hn => exact hnearly _ rfl rfl
  | some tid =>
    obtain ⟨t0, ht0mem, ht0w, ht0id⟩ := findTaskIdByWorker_eq_some hfind
    have hany : s.activeTasks.any (fun u => u.id == tid) = true :=
      List.any_eq_true.mpr ⟨t0, ht0mem, by simp [ht0id]⟩
    rw [settleBound_some (by simpa using hany)]
    apply inv_processQueue
    case hc =>
      have hact1 : activeCount s tid = 1 := by
        have hh := h.core.active_counts ht0mem
        rwa [ht0id] at hh
      constructor
      · intro i
        have horig := h.core.oneplace i
        unfold settledCount queuedCount activeCount at horig ⊢
        simp only [List.countP_append, List.countP_cons, List.countP_nil]
        by_cases hi : i = tid
        · subst hi
          rw [countP_mapDelete_self]
          unfold activeCount at hact1
          simp only [beq_self_eq_true, if_pos]
          omega
        · rw [countP_mapDelete_ne _ hi]
          have hne : (tid == i) = false := by
            simp only [beq_eq_false_iff_ne, ne_eq]
            exact fun hh => hi hh.symm
          rw [hne]
          simpa using horig
      · exact h.core.queueSorted
      · exact nodup_setAdd h.core.readyNodup
    case hn => exact hnearly _ rfl rfl

theorem inv_fault {s : PoolState} (w : WorkerObj) (h : Inv s) :
    Inv (handleWorkerError s w) := by
  have hcnt : ∀ i, s.activeTasks.countP (fun u => u.id == i) ≤ 1 :=
    fun i => h.core.activeCount_le_one i
  rw [handleWorkerError_spec hcnt w]
  constructor
  · constructor
    · intro i
      have horig := h.core.oneplace i
      unfold settledCount queuedCount activeCount at horig ⊢
      simp only [List.countP_append, List.countP_map]
      have hcomp :
          ((fun p => p.1 == i) ∘ fun t : Task => (t.id, Outcome.rejectedFault))
            = fun t : Task => t.id == i := rfl
      rw [hcomp]
      rw [List.countP_filter, List.countP_filter]
      have hcomm : s.activeTasks.countP
            (fun t => t.id == i && (t.worker != some w.ref))
          = s.activeTasks.countP
            (fun t => t.id == i && !(t.worker == some w.ref)) := by
        apply List.countP_congr
        intro a _
        rfl
      have hsplit := countP_split (fun t : Task => t.id == i)
        (fun t : Task => t.worker == some w.ref) s.activeTasks
      have hcomm2 : s.activeTasks.countP
            (fun t => t.id == i && (t.worker == some w.ref))
          = s.activeTasks.countP
            (fun t => (t.worker == some w.ref) && (t.id == i))
          ∧ s.activeTasks.countP
            (fun t => t.id == i && !(t.worker == some w.ref))
          = s.activeTasks.countP
            (fun t => (t.worker != some w.ref) && (t.id == i)) := by
        constructor
        · apply List.countP_congr
          intro a _
          rw [Bool.and_comm]
        · apply List.countP_congr
          intro a _
          rw [Bool.and_comm]
          rfl
      omega
    · exact h.core.queueSorted
    · exact nodup_setDel h.core.readyNodup
  · rcases h.drained with h1 | h1
    · exact Or.inl h1
    · right
      rw [h1]
      rfl

end Pool

namespace Pool

theorem spawnLoop_fields (n : Nat) :
    ∀ (s : PoolState) (i : Nat),
      (spawnLoop s i n).taskQueue = s.taskQueue ∧
      (spawnLoop s i n).activeTasks = s.activeTasks ∧
      (spawnLoop s i n).readyWorkers = s.readyWorkers ∧
      (spawnLoop s i n).settled = s.settled ∧
      (spawnLoop s i n).nextTask = s.nextTask ∧
      (spawnLoop s i n).busySet = s.busySet ∧
      (spawnLoop s i n).dispatchLog = s.dispatchLog ∧
      (spawnLoop s i n).pendingRestarts = s.pendingRestarts ∧
      (spawnLoop s i n).isInitializing = s.isInitializing ∧
      (spawnLoop s i n).maxWorkers = s.maxWorkers ∧
      (spawnLoop s i n).workers.length = s.workers.length + n := by
  induction n with
  | zero =>
    intro s i
    simp [spawnLoop]
  | succ n ih =>
    intro s i
    simp only [spawnLoop]
    have hh := ih
      { s with
          nextRef := s.nextRef + 1,
          workers := s.workers ++ [{ ref := s.nextRef, wid := i }] } (i + 1)
    refine ⟨hh.1, hh.2.1, hh.2.2.1, hh.2.2.2.1, hh.2.2.2.2.1, hh.2.2.2.2.2.1,
      hh.2.2.2.2.2.2.1, hh.2.2.2.2.2.2.2.1, hh.2.2.2.2.2.2.2.2.1,
      hh.2.2.2.2.2.2.2.2.2.1, ?_⟩
    have hlen := hh.2.2.2.2.2.2.2.2.2.2
    simp only [List.length_append, List.length_cons, List.length_nil] at hlen
    omega

theorem inv_initPool {s : PoolState} (h : Inv s) : Inv (initPool s) := by
  unfold initPool
  by_cases hf : s.isInitializing
  · rw [if_pos hf]
    exact h
  · rw [if_neg hf]
    have hh := spawnLoop_fields s.maxWorkers { s with isInitializing := true } 0
    have h1 : Inv { s with isInitializing := true } :=
      Inv.transfer (s := s) rfl rfl rfl rfl rfl h
    exact Inv.transfer hh.1 hh.2.1 hh.2.2.1 hh.2.2.2.1 hh.2.2.2.2.1 h1

/-- Closed form of `terminate()`. -/
theorem terminatePool_spec (s : PoolState) :
    terminatePool s =
      { s with
          taskQueue := [], activeTasks := [], workers := [],
          readyWorkers := [],
          settled := s.settled ++
            s.taskQueue.map (fun t => (t.id, Outcome.rejectedTerminated)) ++
            s.activeTasks.map
              (fun t => (t.id, Outcome.rejectedTerminated)) } := rfl

theorem inv_terminatePool {s : PoolState} (h : Inv s) :
    Inv (terminatePool s) := by
  rw [terminatePool_spec]
  constructor
  · constructor
    · intro i
      have horig := h.core.oneplace i
      unfold settledCount queuedCount activeCount at horig ⊢
      simp only [List.countP_append, List.countP_map, List.countP_nil]
      have hcomp :
          ((fun p => p.1 == i) ∘
            fun t : Task => (t.id, Outcome.rejectedTerminated))
            = fun t : Task => t.id == i := rfl
      rw [hcomp]
      omega
    · exact List.Pairwise.nil
    · exact List.nodup_nil
  · exact Or.inl rfl

theorem inv_mkPool (requested hw : Nat) : Inv (mkPool requested hw) := by
  constructor
  · constructor
    · intro i
      simp [settledCount, queuedCount, activeCount, mkPool]
    · exact List.Pairwise.nil
    · exact List.nodup_nil
  · exact Or.inl rfl

theorem inv_step {s : PoolState} {e : Event} (h : Inv s)
    (hv : validEventB s e = true) : Inv (step s e) := by
  cases e with
  | init => exact inv_initPool h
  | submit => exact inv_processImage h
  | msg w m =>
    cases m with
    | ready => exact inv_msg_ready w h
    | complete => exact inv_msg_settle w .resolved h
    | errorMsg => exact inv_msg_settle w .rejectedTaskError h
    | progress => exact h
  | fault w => exact inv_fault w h
  | restartFire w => exact Inv.transfer (s := s) rfl rfl rfl rfl rfl h
  | terminate => exact inv_terminatePool h

theorem inv_reachable {s : PoolState} (h : Reachable s) : Inv s := by
  induction h with
  | start requested hw => exact inv_mkPool requested hw
  | next e _ hv ih => exact inv_step ih hv

end Pool

namespace Pool

theorem processImage_noready {s : PoolState} (h : s.readyWorkers = []) :
    processImage s =
      { s with
          nextTask := s.nextTask + 1,
          taskQueue := s.taskQueue ++ [{ id := s.nextTask }] } := by
  unfold processImage
  exact processQueue_of_ready_nil (by simpa using h)

theorem processImage_dispatch {s : PoolState} (h : Inv s)
    (hq : s.taskQueue = []) {w : Nat} {ws : List Nat}
    (hr : s.readyWorkers = w :: ws) :
    processImage s =
      { s with
          nextTask := s.nextTask + 1,
          taskQueue := [],
          readyWorkers := ws,
          busySet := setAdd w s.busySet,
          activeTasks := s.activeTasks ++
            [{ id := s.nextTask, worker := some w }],
          dispatchLog := s.dispatchLog ++ [(s.nextTask, w)] } := by
  have hwws : w ∉ ws := by
    have hh := h.core.readyNodup
    rw [hr] at hh
    exact (List.nodup_cons.mp hh).1
  unfold processImage
  rw [processQueue_dispatch (t := { id := s.nextTask }) (q := [])
    (by simp [hq]) (by simpa using hr) hwws]
  have hfresh : s.activeTasks.any (fun u => u.id == s.nextTask) = false := by
    apply any_eq_false_of_countP_eq_zero
    have hh := h.core.oneplace s.nextTask
    rw [if_neg (by omega)] at hh
    unfold activeCount at hh
    omega
  simp only [executeTask, mapSet]
  rw [if_neg (by simp only [hfresh]; simp)]

theorem submitN_noready (n : Nat) :
    ∀ (s : PoolState), s.readyWorkers = [] →
      (submitN s n).dispatchLog = s.dispatchLog ∧
      (submitN s n).taskQueue.length = s.taskQueue.length + n ∧
      (submitN s n).readyWorkers = [] ∧
      (submitN s n).workers = s.workers := by
  induction n with
  | zero =>
    intro s h
    exact ⟨rfl, rfl, h, rfl⟩
  | succ n ih =>
    intro s h
    rw [submitN, processImage_noready h]
    have hh := ih
      { s with
          nextTask := s.nextTask + 1,
          taskQueue := s.taskQueue ++ [({ id := s.nextTask } : Task)] }
      (by simpa using h)
    refine ⟨hh.1, ?_, hh.2.2.1, hh.2.2.2⟩
    rw [hh.2.1]
    show (s.taskQueue ++ [({ id := s.nextTask } : Task)]).length + n
        = s.taskQueue.length + (n + 1)
    simp only [List.length_append, List.length_cons, List.length_nil]
    omega

theorem submitN_spec (n : Nat) :
    ∀ (s : PoolState), Inv s → s.taskQueue = [] →
      (submitN s n).dispatchLog.length
          = s.dispatchLog.length + min n s.readyWorkers.length ∧
      (submitN s n).taskQueue.length = n - s.readyWorkers.length ∧
      (submitN s n).workers = s.workers := by
  induction n with
  | zero =>
    intro s h hq
    refine ⟨by simp [submitN], ?_, rfl⟩
    show s.taskQueue.length = 0 - s.readyWorkers.length
    rw [hq]
    simp
  | succ n ih =>
    intro s h hq
    cases hr : s.readyWorkers with
    | nil =>
      have hh := submitN_noready (n + 1) s hr
      refine ⟨?_, ?_, hh.2.2.2⟩
      · rw [hh.1]
        simp
      · rw [hh.2.1, hq]
        simp
    | cons w ws =>
      rw [submitN, processImage_dispatch h hq hr]
      have hinv : Inv (processImage s) := inv_processImage h
      rw [processImage_dispatch h hq hr] at hinv
      have hh := ih _ hinv rfl
      refine ⟨?_, ?_, ?_⟩
      · rw [hh.1]
        show (s.dispatchLog ++ [(s.nextTask, w)]).length + min n ws.length
            = s.dispatchLog.length + min (n + 1) (w :: ws).length
        simp only [List.length_append, List.length_cons, List.length_nil]
        omega
      · rw [hh.2.1]
        show n - ws.length = (n + 1) - (w :: ws).length
        simp only [List.length_cons]
        omega
      · rw [hh.2.2]

end Pool

namespace Pool

theorem reachable_poolInit : Reachable poolInit :=
  Reachable.next .init (Reachable.start 2 8) (by decide)

theorem reachable_poolReady2 : Reachable poolReady2 :=
  Reachable.next (.msg workerB .ready)
    (Reachable.next (.msg workerA .ready) reachable_poolInit (by decide))
    (by decide)

theorem reachable_submitN {s : PoolState} (h : Reachable s) (n : Nat) :
    Reachable (submitN s n) := by
  induction n generalizing s with
  | zero => exact h
  | succ n ih => exact ih (Reachable.next .submit h rfl)

theorem initPool_totalWorkers {s : PoolState}
    (hf : s.isInitializing = false) :
    (initPool s).workers.length = s.workers.length + s.maxWorkers ∧
    (initPool s).maxWorkers = s.maxWorkers ∧
    (initPool s).isInitializing = false := by
  unfold initPool
  rw [if_neg (by simp [hf])]
  have hh := spawnLoop_fields s.maxWorkers { s with isInitializing := true } 0
  exact ⟨hh.2.2.2.2.2.2.2.2.2.2, hh.2.2.2.2.2.2.2.2.2.1, rfl⟩

theorem settledCount_terminatePool (s : PoolState) (i : Nat) :
    settledCount (terminatePool s) i
      = settledCount s i + queuedCount s i + activeCount s i := by
  rw [terminatePool_spec]
  unfold settledCount queuedCount activeCount
  simp only [List.countP_append, List.countP_map]
  rfl

end Pool

open Pool Worker

/-- C1 (counterexample): the spec claims the future returned by
`processImage` resolves with exactly the `{ width, height, imageData }`
record; in the code the worker posts `{ status: 'complete', output: { width,
height, imageData } }` and `handleWorkerMessage` runs `task.resolve(data)` on
the whole message, so at this concrete result the resolved value is not the
bare record. -/
theorem claim_C1_counterexample :
    resolveValue (workerCompleteMessage ⟨4, 3, [7, 9]⟩)
      ≠ bareResultObject ⟨4, 3, [7, 9]⟩ := by decide

/-- C1 (amended): for every successfully processed task the future resolves
with the full delivered message — an object whose `status` field is
`"complete"` and whose `output` field holds the `{ width, height, imageData }`
record; callers reach the record through `result.output`. -/
theorem claim_C1_amended :
    ∀ r : ResultRecord,
      resolveValue (workerCompleteMessage r)
          = [("status", FieldVal.vStr "complete"),
             ("output", FieldVal.vRecord r)] ∧
      jsGet (resolveValue (workerCompleteMessage r)) "output"
          = some (FieldVal.vRecord r) := by
  intro r
  exact ⟨rfl, rfl⟩

/-- C2: queue draining — (a) on every reachable quiescent state the pending
queue and the ready set are never simultaneously non-empty, i.e. every
triggered drain runs until its loop condition fails; (b) from a state whose
ready set contains all `totalUnits` units and whose queue is empty,
submitting `n` tasks dispatches exactly `min n totalUnits` of them at once
(all `totalUnits` when `n > totalUnits`) and leaves `n - totalUnits` queued;
(c) when no unit is ready, `processQueue` dispatches nothing and leaves the
state unchanged. -/
theorem claim_C2 :
    (∀ s : PoolState, Reachable s →
      s.taskQueue = [] ∨ s.readyWorkers = []) ∧
    (∀ (s : PoolState) (n : Nat), Reachable s → s.taskQueue = [] →
      s.readyWorkers.length = (getStats s).totalWorkers →
      (submitN s n).dispatchLog.length
          = s.dispatchLog.length + min n (getStats s).totalWorkers ∧
      (submitN s n).taskQueue.length = n - (getStats s).totalWorkers) ∧
    (∀ s : PoolState, s.readyWorkers = [] → processQueue s = s) := by
  refine ⟨?_, ?_, ?_⟩
  · intro s hs
    exact (inv_reachable hs).drained
  · intro s n hs hq hr
    have hh := submitN_spec n s (inv_reachable hs) hq
    rw [← hr]
    exact ⟨hh.1, hh.2.1⟩
  · intro s hsr
    exact processQueue_of_ready_nil hsr

/-- C2 (witness): the concrete two-worker pool with five submissions —
exactly 2 dispatched, 3 queued, and the fully-loaded state is left unchanged
by a drain. -/
theorem claim_C2_witness :
    (poolReady2.taskQueue = [] ∨ poolReady2.readyWorkers = []) ∧
    ((submitN poolReady2 5).dispatchLog.length
        = poolReady2.dispatchLog.length
            + min 5 (getStats poolReady2).totalWorkers ∧
      (submitN poolReady2 5).taskQueue.length
        = 5 - (getStats poolReady2).totalWorkers) ∧
    processQueue poolFive = poolFive := by
  refine ⟨claim_C2.1 poolReady2 reachable_poolReady2, ?_, ?_⟩
  · exact claim_C2.2.1 poolReady2 5 reachable_poolReady2 (by decide) (by decide)
  · exact claim_C2.2.2 poolFive (by decide)

/-- C3 (counterexample): `initialize()` resets `isInitializing` at the end of
its synchronous body, so a second sequential call passes the guard and spawns
a whole second generation: on the repository's pool two calls leave 4 workers
instead of 2. -/
theorem claim_C3_counterexample :
    (getStats (initPool (mkPool 2 8))).totalWorkers = 2 ∧
    (getStats (initPool (initPool (mkPool 2 8)))).totalWorkers = 4 ∧
    ¬ (getStats (initPool (initPool (mkPool 2 8)))).totalWorkers
        = (getStats (initPool (mkPool 2 8))).totalWorkers := by
  exact ⟨by decide, by decide, by decide⟩

/-- C3 (amended): a call made while `isInitializing` is `true` is a no-op
(no second generation is spawned while one call is in progress), and one
completed call on a fresh pool spawns exactly
`min(requestedWorkers, hardwareConcurrency-derived default)` units; but the
flag is reset when the call finishes, so a second sequential `initialize()`
spawns a full further generation and `totalUnits` doubles. -/
theorem claim_C3_amended :
    (∀ s : PoolState, s.isInitializing = true → initPool s = s) ∧
    (∀ requested hw : Nat,
      (getStats (initPool (mkPool requested hw))).totalWorkers
          = (mkPool requested hw).maxWorkers) ∧
    (∀ requested hw : Nat,
      (getStats (initPool (initPool (mkPool requested hw)))).totalWorkers
          = 2 * (mkPool requested hw).maxWorkers) := by
  refine ⟨?_, ?_, ?_⟩
  · intro s hf
    unfold initPool
    rw [if_pos hf]
  · intro requested hw
    have hh := initPool_totalWorkers (s := mkPool requested hw) rfl
    show (initPool (mkPool requested hw)).workers.length = _
    rw [hh.1]
    show 0 + (mkPool requested hw).maxWorkers = (mkPool requested hw).maxWorkers
    omega
  · intro requested hw
    have h1 := initPool_totalWorkers (s := mkPool requested hw) rfl
    have h2 := initPool_totalWorkers (s := initPool (mkPool requested hw))
      h1.2.2
    show (initPool (initPool (mkPool requested hw))).workers.length = _
    rw [h2.1, h1.1, h1.2.1]
    show 0 + (mkPool requested hw).maxWorkers
        + (mkPool requested hw).maxWorkers = _
    omega

/-- C3 (witness): the amended statement at the repository's pool. -/
theorem claim_C3_witness :
    initPool { mkPool 2 8 with isInitializing := true }
        = { mkPool 2 8 with isInitializing := true } ∧
    (getStats (initPool (mkPool 2 8))).totalWorkers
        = (mkPool 2 8).maxWorkers ∧
    (getStats (initPool (initPool (mkPool 2 8)))).totalWorkers
        = 2 * (mkPool 2 8).maxWorkers :=
  ⟨claim_C3_amended.1 _ rfl, claim_C3_amended.2.1 2 8,
    claim_C3_amended.2.2 2 8⟩

/-- C5: the pending queue lists the still-waiting tasks in submission order
at every reachable state (task ids are submission ordinals, and the queue is
strictly increasing on them); and in the concrete 2-unit scenario with five
submissions t1..t5 (ids 0..4), t1 and t2 dispatch immediately, then — as
completions free units — t3 dispatches before t4 and t5, and t4 before t5. -/
theorem claim_C5 :
    (∀ s : PoolState, Reachable s →
      s.taskQueue.Pairwise (fun a b => a.id < b.id)) ∧
    (poolFive.dispatchLog = [(0, 0), (1, 1)] ∧
      poolFive.taskQueue.map Task.id = [2, 3, 4] ∧
      poolAfter1.dispatchLog = [(0, 0), (1, 1), (2, 0)] ∧
      poolAfter1.taskQueue.map Task.id = [3, 4] ∧
      poolAfter2.dispatchLog = [(0, 0), (1, 1), (2, 0), (3, 1)] ∧
      poolAfter2.taskQueue.map Task.id = [4] ∧
      poolAfter3.dispatchLog = [(0, 0), (1, 1), (2, 0), (3, 1), (4, 0)] ∧
      poolAfter3.taskQueue = []) := by
  constructor
  · intro s hs
    exact (inv_reachable hs).core.queueSorted
  · exact ⟨by decide, by decide, by decide, by decide, by decide, by decide,
      by decide, by decide⟩

/-- C5 (witness): the FIFO part instantiated at the concrete loaded pool. -/
theorem claim_C5_witness :
    poolFive.taskQueue.Pairwise (fun a b => a.id < b.id) :=
  claim_C5.1 poolFive (reachable_submitN reachable_poolReady2 5)

/-- C8 (counterexample): `getInstance` caches the constructed objects, not a
promise, so two calls interleaved at the first `await` both pass the
`!this.model || !this.processor` guard and both begin construction — the
claimed at-most-once construction fails on the schedule that starts call 0
and then call 1. -/
theorem claim_C8_counterexample :
    (runSched (initSys 2) [0, 1]).constructions = 2 ∧
    ¬ (runSched (initSys 2) [0, 1]).constructions ≤ 1 := by decide

/-- C8 (amended): once construction has completed (both statics assigned),
every further `getInstance` call returns the cached model/processor pair and
starts no construction; but a call that begins while a construction is merely
in flight (the statics still unset) starts its own construction — concurrent
callers do not share an in-flight construction. -/
theorem claim_C8_amended :
    (∀ (s : SysState) (j m p : Nat),
      s.singleton.model = some m → s.singleton.processor = some p →
      s.calls.get? j = some CallPhase.notStarted →
      stepCall s j
          = { s with
              calls := s.calls.set j (CallPhase.done (some m) (some p)) } ∧
      (stepCall s j).constructions = s.constructions) ∧
    (∀ (s : SysState) (j : Nat),
      s.singleton.model = none →
      s.calls.get? j = some CallPhase.notStarted →
      (stepCall s j).constructions = s.constructions + 1) := by
  constructor
  · intro s j m p hm hp hget
    have hcond : ¬ (s.singleton.model = none ∨ s.singleton.processor = none)
        := by
      rintro (hc | hc)
      · rw [hm] at hc
        cases hc
      · rw [hp] at hc
        cases hc
    simp only [stepCall, hget]
    rw [if_neg hcond, hm, hp]
    exact ⟨rfl, rfl⟩
  · intro s j hm hget
    simp only [stepCall, hget]
    rw [if_pos (Or.inl hm)]

/-- C8 (witness): after one completed construction the second message's call
returns the cached pair without constructing; from the fresh state a call
does begin a construction. -/
theorem claim_C8_witness :
    (stepCall sysAfterOne 1
        = { sysAfterOne with
            calls := sysAfterOne.calls.set 1
              (CallPhase.done (some 0) (some 0)) } ∧
      (stepCall sysAfterOne 1).constructions = sysAfterOne.constructions) ∧
    (stepCall (initSys 2) 0).constructions = (initSys 2).constructions + 1 :=
  ⟨claim_C8_amended.1 sysAfterOne 1 0 0 (by decide) (by decide) (by decide),
    claim_C8_amended.2 (initSys 2) 0 (by decide) (by decide)⟩

/-- C9: the construction-failure message names the failing phase — when the
model load throws the catch sees `modelLoaded = false` and posts
`Failed to load model: …`, when the model already loaded and the processor
load throws it posts `Failed to load processor: …`, no error is posted when
both succeed, and the two message forms are disjoint, so the reported phase
determines which load threw. -/
theorem claim_C9 :
    (∀ (e : String) (po : LoadOutcome),
      constructionError (LoadOutcome.fail e) po
          = some ("Failed to load model: " ++ e)) ∧
    (∀ e : String,
      constructionError LoadOutcome.ok (LoadOutcome.fail e)
          = some ("Failed to load processor: " ++ e)) ∧
    constructionError LoadOutcome.ok LoadOutcome.ok = none ∧
    (∀ e e2 : String,
      "Failed to load processor: " ++ e ≠ "Failed to load model: " ++ e2) := by
  have hm : ("Failed to load " ++ "model" ++ ": " : String)
      = "Failed to load model: " := by decide
  have hp : ("Failed to load " ++ "processor" ++ ": " : String)
      = "Failed to load processor: " := by decide
  refine ⟨?_, ?_, rfl, ?_⟩
  · intro e po
    show some ("Failed to load " ++ "model" ++ ": " ++ e) = _
    rw [hm]
  · intro e
    show some ("Failed to load " ++ "processor" ++ ": " ++ e) = _
    rw [hp]
  · intro e e2 h
    have hd := congrArg String.data h
    simp only [String.data_append] at hd
    have h15 := congrArg (fun l => l[15]?) hd
    simp only at h15
    rw [List.getElem?_append, List.getElem?_append] at h15
    simp at h15

/-- C4 (counterexample): the claimed equivalence "a unit is in the ready set
iff it is not bound to an active task" fails in both directions. Immediately
after `initialize()` worker 0 exists, is bound to no task, yet is not in the
ready set (it has not signalled `ready`).  And after a failed pipeline
construction the unit is made ready and receives the queued task, and the
retried construction's `ready` message then puts the unit into the ready set
while that task is still bound to it. -/
theorem claim_C4_counterexample :
    (¬ (∀ s : PoolState, Reachable s → ∀ w ∈ s.workers,
        (w.ref ∈ s.readyWorkers
          ↔ findTaskIdByWorker s.activeTasks w.ref = none))) ∧
    (Reachable poolReadyWhileBound ∧
      workerA ∈ poolReadyWhileBound.workers ∧
      workerA.ref ∈ poolReadyWhileBound.readyWorkers ∧
      findTaskIdByWorker poolReadyWhileBound.activeTasks workerA.ref
        = some 0) := by
  constructor
  · intro hall
    have h2 := hall poolInit reachable_poolInit workerA (by decide)
    have h4 := h2.mpr (by decide)
    exact absurd h4 (by decide)
  · refine ⟨?_, by decide, by decide, by decide⟩
    exact Reachable.next (.msg workerA .ready)
      (Reachable.next (.msg workerA .errorMsg)
        (reachable_submitN reachable_poolInit 1) (by decide))
      (by decide)

/-- C4 (amended): at every reachable quiescent state, every created and
still-unsettled task sits in exactly one of the pending queue and the active
map, and no task ever sits in both.  No ready-set/unbound equivalence
survives: right after `initialize()` a unit is neither ready nor bound, and
a unit whose retried pipeline construction signals `ready` during a task is
in the ready set while bound, so the claim's "iff" fails in both
directions and only the task part remains. -/
theorem claim_C4_amended :
    ∀ s : PoolState, Reachable s →
      (∀ i, i < s.nextTask → settledCount s i = 0 →
        queuedCount s i + activeCount s i = 1) ∧
      (∀ i, queuedCount s i + activeCount s i ≤ 1) := by
  intro s hs
  have h := inv_reachable hs
  constructor
  · intro i hi h0
    have hh := h.core.oneplace i
    rw [if_pos hi] at hh
    omega
  · intro i
    have hh := h.core.oneplace i
    by_cases hi : i < s.nextTask
    · rw [if_pos hi] at hh
      omega
    · rw [if_neg hi] at hh
      omega

/-- C4 (witness): the amended statement at a concrete reachable state — a
queued task and an active task each counted exactly once in one place, and
no task id counted twice. -/
theorem claim_C4_witness :
    (queuedCount poolFive 2 + activeCount poolFive 2 = 1) ∧
    (queuedCount poolFive 0 + activeCount poolFive 0 = 1) ∧
    (queuedCount poolFive 1 + activeCount poolFive 1 ≤ 1) := by
  have hh := claim_C4_amended poolFive
    (reachable_submitN reachable_poolReady2 5)
  exact ⟨hh.1 2 (by decide) (by decide), hh.1 0 (by decide) (by decide),
    hh.2 1⟩

/-- C6: `terminate()` empties the pending queue, the active map, the unit
list and the ready set; every task that was created and still unsettled gets
settled exactly once, with the pool-terminated rejection recorded for it; and
no future is ever settled twice. -/
theorem claim_C6 :
    ∀ s : PoolState, Reachable s →
      (terminatePool s).taskQueue = [] ∧
      (terminatePool s).activeTasks = [] ∧
      (terminatePool s).workers = [] ∧
      (terminatePool s).readyWorkers = [] ∧
      (∀ i, i < s.nextTask → settledCount s i = 0 →
        settledCount (terminatePool s) i = 1 ∧
        (i, Outcome.rejectedTerminated) ∈ (terminatePool s).settled) ∧
      (∀ i, settledCount (terminatePool s) i ≤ 1) := by
  intro s hs
  have h := inv_reachable hs
  refine ⟨rfl, rfl, rfl, rfl, ?_, ?_⟩
  · intro i hi h0
    have hsum := h.core.oneplace i
    rw [if_pos hi] at hsum
    constructor
    · rw [settledCount_terminatePool]
      omega
    · rw [terminatePool_spec]
      show (i, Outcome.rejectedTerminated) ∈ s.settled ++ _ ++ _
      by_cases hq : 0 < queuedCount s i
      · obtain ⟨t, htmem, htp⟩ := List.countP_pos_iff.mp hq
        have htid : t.id = i := by simpa using htp
        apply List.mem_append_left
        apply List.mem_append_right
        exact List.mem_map.mpr ⟨t, htmem, by rw [htid]⟩
      · have ha : 0 < activeCount s i := by omega
        obtain ⟨t, htmem, htp⟩ := List.countP_pos_iff.mp ha
        have htid : t.id = i := by simpa using htp
        apply List.mem_append_right
        exact List.mem_map.mpr ⟨t, htmem, by rw [htid]⟩
  · intro i
    rw [settledCount_terminatePool]
    have hsum := h.core.oneplace i
    by_cases hi : i < s.nextTask
    · rw [if_pos hi] at hsum
      omega
    · rw [if_neg hi] at hsum
      omega

/-- C6 (witness): terminating the loaded pool settles the queued task t3 and
the active task t1 exactly once each with the pool-terminated rejection, and
clears everything. -/
theorem claim_C6_witness :
    (terminatePool poolFive).taskQueue = [] ∧
    (terminatePool poolFive).workers = [] ∧
    (settledCount (terminatePool poolFive) 2 = 1 ∧
      (2, Outcome.rejectedTerminated) ∈ (terminatePool poolFive).settled) ∧
    (settledCount (terminatePool poolFive) 0 = 1 ∧
      (0, Outcome.rejectedTerminated) ∈ (terminatePool poolFive).settled) ∧
    settledCount (terminatePool poolFive) 7 ≤ 1 := by
  have hh := claim_C6 poolFive (reachable_submitN reachable_poolReady2 5)
  exact ⟨hh.1, hh.2.2.1, hh.2.2.2.2.1 2 (by decide) (by decide),
    hh.2.2.2.2.1 0 (by decide) (by decide), hh.2.2.2.2.2 7⟩

/-- C7: on a unit fault, `handleWorkerError` removes the unit from the ready
set and the busy set, rejects exactly the active tasks bound to that unit
(recording a fault rejection for each, in map order) and no others, leaves
the pending queue and the unit list untouched; and when the scheduled restart
fires, a fresh unit with the same ordinal `id` replaces it in the same slot,
so `totalUnits` keeps its pre-fault value. -/
theorem claim_C7 :
    ∀ (s : PoolState) (w : WorkerObj), Reachable s →
      w.ref ∉ (handleWorkerError s w).readyWorkers ∧
      w.ref ∉ (handleWorkerError s w).busySet ∧
      (handleWorkerError s w).taskQueue = s.taskQueue ∧
      (handleWorkerError s w).activeTasks
          = s.activeTasks.filter (fun t => t.worker != some w.ref) ∧
      (handleWorkerError s w).settled = s.settled ++
          (s.activeTasks.filter (fun t => t.worker == some w.ref)).map
            (fun t => (t.id, Outcome.rejectedFault)) ∧
      (handleWorkerError s w).workers = s.workers ∧
      (step (handleWorkerError s w) (.restartFire w)).workers.length
          = s.workers.length ∧
      (w.wid < s.workers.length →
        (step (handleWorkerError s w) (.restartFire w)).workers[w.wid]?
          = some { ref := (handleWorkerError s w).nextRef, wid := w.wid }) := by
  intro s w hs
  have h := inv_reachable hs
  have hspec := handleWorkerError_spec
    (fun i => h.core.activeCount_le_one i) w
  rw [hspec]
  refine ⟨?_, ?_, rfl, rfl, rfl, rfl, ?_, ?_⟩
  · intro hmem
    exact (mem_setDel.mp hmem).2 rfl
  · intro hmem
    exact (mem_setDel.mp hmem).2 rfl
  · show (s.workers.set w.wid { ref := s.nextRef, wid := w.wid }).length
        = s.workers.length
    exact List.length_set ..
  · intro hwid
    show (s.workers.set w.wid { ref := s.nextRef, wid := w.wid })[w.wid]?
        = some { ref := s.nextRef, wid := w.wid }
    rw [List.getElem?_set]
    simp [hwid]

/-- C7 (witness): a fault on the worker running the only submitted task — the
task's future rejects with a fault, the queue stays untouched, and the
restart restores the unit count with the same ordinal. -/
theorem claim_C7_witness :
    workerA.ref ∉ (handleWorkerError poolOne workerA).readyWorkers ∧
    (handleWorkerError poolOne workerA).taskQueue = poolOne.taskQueue ∧
    (handleWorkerError poolOne workerA).settled = poolOne.settled ++
        (poolOne.activeTasks.filter
          (fun t => t.worker == some workerA.ref)).map
          (fun t => (t.id, Outcome.rejectedFault)) ∧
    (step (handleWorkerError poolOne workerA)
        (.restartFire workerA)).workers.length = poolOne.workers.length ∧
    (step (handleWorkerError poolOne workerA)
        (.restartFire workerA)).workers[workerA.wid]?
      = some { ref := (handleWorkerError poolOne workerA).nextRef,
               wid := workerA.wid } := by
  have hh := claim_C7 poolOne workerA
    (reachable_submitN reachable_poolReady2 1)
  exact ⟨hh.1, hh.2.2.1, hh.2.2.2.2.1, hh.2.2.2.2.2.2.1,
    hh.2.2.2.2.2.2.2 (by decide)⟩

/-- C10: an `error`-status message from a unit with no bound task settles no
future and is discarded, yet the handler still clears the unit's busy flag
and adds it to the ready set: with an empty queue the unit sits ready (and
the active map is untouched), and with a task waiting and no other unit
ready, that very unit immediately receives the queued task. -/
theorem claim_C10 :
    ∀ (s : PoolState) (w : WorkerObj), Reachable s →
      findTaskIdByWorker s.activeTasks w.ref = none →
      (step s (.msg w .errorMsg)).settled = s.settled ∧
      (s.taskQueue = [] →
        w.ref ∈ (step s (.msg w .errorMsg)).readyWorkers ∧
        w.ref ∉ (step s (.msg w .errorMsg)).busySet ∧
        (step s (.msg w .errorMsg)).activeTasks = s.activeTasks ∧
        (step s (.msg w .errorMsg)).taskQueue = []) ∧
      (∀ t q, s.taskQueue = t :: q → s.readyWorkers = [] →
        (step s (.msg w .errorMsg)).activeTasks
            = s.activeTasks ++ [{ t with worker := some w.ref }] ∧
        (step s (.msg w .errorMsg)).taskQueue = q ∧
        (step s (.msg w .errorMsg)).dispatchLog
            = s.dispatchLog ++ [(t.id, w.ref)] ∧
        w.ref ∈ (step s (.msg w .errorMsg)).busySet) := by
  intro s w hs hfind
  have h := inv_reachable hs
  have hstep : step s (.msg w .errorMsg)
      = processQueue (settleBound
          { s with
              busySet := setDel w.ref s.busySet,
              readyWorkers := setAdd w.ref s.readyWorkers }
          (findTaskIdByWorker s.activeTasks w.ref) .rejectedTaskError) := rfl
  rw [hstep, hfind, settleBound_none]
  cases hq : s.taskQueue with
  | nil =>
    rw [processQueue_of_queue_nil (by simp [hq])]
    refine ⟨rfl, ?_, ?_⟩
    · intro _
      refine ⟨mem_setAdd.mpr (Or.inr rfl), ?_, rfl, by simp [hq]⟩
      intro hmem
      exact (mem_setDel.mp hmem).2 rfl
    · intro t q hcontra _
      exact List.noConfusion hcontra
  | cons t q =>
    have hready : s.readyWorkers = [] := by
      rcases h.drained with h1 | h1
      · rw [hq] at h1
        exact List.noConfusion h1
      · exact h1
    have hsadd : setAdd w.ref s.readyWorkers = [w.ref] := by
      rw [hready]
      rfl
    have hr1 : ({ s with
        busySet := setDel w.ref s.busySet,
        taskQueue := t :: q,
        readyWorkers := setAdd w.ref s.readyWorkers } : PoolState).readyWorkers
        = w.ref :: [] := by simp [hsadd]
    rw [processQueue_dispatch (t := t) (q := q) rfl hr1 (by simp)]
    have hfresh : s.activeTasks.any (fun u => u.id == t.id) = false := by
      apply any_eq_false_of_countP_eq_zero
      have hc := h.core.queue_mem_counts (t := t)
        (by rw [hq]; exact List.mem_cons_self t q)
      unfold activeCount at hc
      exact hc.2.2
    simp only [executeTask, mapSet]
    rw [if_neg (by
      show ¬ (s.activeTasks.any fun u => u.id == t.id) = true
      rw [hfresh]
      simp)]
    refine ⟨by trivial, ?_, ?_⟩
    · intro hcontra
      simp at hcontra
    · intro t2 q2 heq _
      have ht2 : t2 = t := by
        injection heq with h1 _
        exact h1.symm
      have hq2 : q2 = q := by
        injection heq with _ h2
        exact h2.symm
      subst ht2
      subst hq2
      exact ⟨by trivial, by trivial, by trivial,
        mem_setAdd.mpr (Or.inr rfl)⟩

/-- C10 (witness): the concrete pool with one worker spawned (never ready,
pipeline construction failed) and one queued task: the discarded error makes
the unit available and the queued task is dispatched to it at once. -/
theorem claim_C10_witness :
    (step poolQueuedOne (.msg workerA .errorMsg)).settled
        = poolQueuedOne.settled ∧
    (step poolQueuedOne (.msg workerA .errorMsg)).activeTasks
        = poolQueuedOne.activeTasks ++ [{ id := 0, worker := some 0 }] ∧
    (step poolQueuedOne (.msg workerA .errorMsg)).taskQueue = [] ∧
    (step poolQueuedOne (.msg workerA .errorMsg)).dispatchLog
        = poolQueuedOne.dispatchLog ++ [(0, 0)] ∧
    workerA.ref ∈ (step poolQueuedOne (.msg workerA .errorMsg)).busySet := by
  have hh := claim_C10 poolQueuedOne workerA
    (reachable_submitN reachable_poolInit 1) (by decide)
  have h3 := hh.2.2 { id := 0 } [] (by decide) (by decide)
  exact ⟨hh.1, h3.1, h3.2.1, h3.2.2.1, h3.2.2.2⟩

/-- C9 (witness): the phase-naming equations at a concrete error message. -/
theorem claim_C9_witness :
    constructionError (LoadOutcome.fail "net down") LoadOutcome.ok
        = some "Failed to load model: net down" ∧
    constructionError LoadOutcome.ok (LoadOutcome.fail "net down")
        = some "Failed to load processor: net down" ∧
    constructionError LoadOutcome.ok LoadOutcome.ok = none ∧
    "Failed to load processor: " ++ "x" ≠ "Failed to load model: " ++ "x" := by
  refine ⟨?_, ?_, claim_C9.2.2.1, claim_C9.2.2.2 "x" "x"⟩
  · rw [claim_C9.1 "net down" LoadOutcome.ok]
    decide
  · rw [claim_C9.2.1 "net down"]
    decide
